import Mathlib

/-!
# Verification of the oliepriser scraper core

A shallow embedding of `src/scraper.rs` (together with the entry point in
`src/main.rs` and the data types in `src/credentials.rs`): the price-string
normalizer `sanitize_price_string`, the candidate-selection loop
`extract_price`, the best-effort price report `add_price_for_provider`, the
per-provider pipeline body dispatched by `handle_scraping`, the orchestrator
`run`, and a small-step model of the `buffer_unordered(10)` concurrency cap.

Numeric values are modelled exactly: a parsed `f64` is represented by a
canonical scaled decimal `m / 10^s` (or one of the non-finite values
`inf`, `-inf`, `NaN`).  This idealizes IEEE-754 rounding — every decimal
literal is kept exactly — which is faithful for all magnitudes exercised
here; binary rounding and overflow of extreme exponents are not modelled.
Network and HTML effects are supplied as explicit environments: each
fallible call site of the Rust code becomes an `Except`-valued input.
-/

/-- Errors of the HTTP layer (`reqwest::Error` and `std::io::Error` are both
modelled as plain messages; no claim inspects their structure). -/
abbrev ReqError := String

/-- `Token` from `src/credentials.rs`. -/
structure Token where
  access_token : String
  token_type : String
deriving DecidableEq

/-- Catalog entry `Providers` from `src/scraper.rs` (just an id). -/
structure Providers where
  id : Int
deriving DecidableEq

/-- Resolved `Provider` from `src/scraper.rs`. -/
structure Provider where
  id : Int
  name : String
  url : String
  html_element : String
deriving DecidableEq

instance {ε α : Type} [DecidableEq ε] [DecidableEq α] : DecidableEq (Except ε α) := fun x y =>
  match x, y with
  | .ok a, .ok b =>
    if h : a = b then isTrue (h ▸ rfl) else isFalse (fun he => h (Except.ok.inj he))
  | .error a, .error b =>
    if h : a = b then isTrue (h ▸ rfl) else isFalse (fun he => h (Except.error.inj he))
  | .ok _, .error _ => isFalse (fun he => Except.noConfusion he)
  | .error _, .ok _ => isFalse (fun he => Except.noConfusion he)

/-- An HTTP response as seen through `reqwest`: its status-success flag and
the result of reading its body text (`response.text()` may itself fail). -/
structure HttpResponse where
  statusSuccess : Bool
  text : Except ReqError String
deriving DecidableEq

/-! ## Exact model of `f64` values produced by `str::parse::<f64>()` -/

/-- Value model for `f64`: a finite value `m / 10^s` in canonical form
(`s = 0` or `m` not divisible by 10), or a non-finite value. -/
inductive FloatVal where
  | finite (m : Int) (s : Nat) : FloatVal
  | inf : FloatVal
  | negInf : FloatVal
  | nan : FloatVal
deriving DecidableEq

/-- Strip common factors of 10 from a scaled decimal `m / 10^s`. -/
def stripZeros : Int → Nat → Int × Nat
  | m, 0 => (m, 0)
  | m, s+1 => if m % 10 = 0 then stripZeros (m / 10) s else (m, s+1)

/-- Build the canonical finite value `m / 10^s`. -/
def mkFinite (m : Int) (s : Nat) : FloatVal :=
  let p := stripZeros m s
  FloatVal.finite p.1 p.2

/-- `10 ^ k` as a rational, by plain recursion. -/
def pow10 : Nat → ℚ
  | 0 => 1
  | k+1 => 10 * pow10 k

/-- Rational denotation of a finite or zero-defaulted value (non-finite
values are sent to 0; they are compared only through `FloatVal` itself). -/
def FloatVal.toQ : FloatVal → ℚ
  | .finite m s => (m : ℚ) / pow10 s
  | _ => 0

/-- The Rust comparison `price > 0.0`: positive finite values and `+inf`
pass; `-inf` and `NaN` do not (every comparison with NaN is false). -/
def fvGt0 : FloatVal → Bool
  | .finite m _ => decide (0 < m)
  | .inf => true
  | .negInf => false
  | .nan => false

/-! ## Digits -/

/-- The decimal digit characters. -/
def digitChar : Nat → Char
  | 0 => '0'
  | 1 => '1'
  | 2 => '2'
  | 3 => '3'
  | 4 => '4'
  | 5 => '5'
  | 6 => '6'
  | 7 => '7'
  | 8 => '8'
  | 9 => '9'
  | _ => '*'

/-- Numeric value of a digit character. -/
def digVal (c : Char) : Nat := c.toNat - 48

/-- Value of a big-endian digit string. -/
def natOfDigits (l : List Char) : Nat :=
  l.foldl (fun n c => 10 * n + digVal c) 0

/-- ASCII digit test (the digit class of Rust's float grammar). -/
def isDigitC (c : Char) : Bool := decide (48 ≤ c.toNat ∧ c.toNat ≤ 57)

/-- All characters are ASCII digits. -/
def allDigits (l : List Char) : Bool := l.all isDigitC

/-- Decimal digit string of `n`, most significant first (fuelled so that it
reduces in the kernel; `natDigits` supplies enough fuel). -/
def natDigitsF : Nat → Nat → List Char
  | 0, _ => []
  | fuel+1, n => if n < 10 then [digitChar n] else natDigitsF fuel (n / 10) ++ [digitChar (n % 10)]

/-- Decimal digit string of `n`. -/
def natDigits (n : Nat) : List Char := natDigitsF (n + 1) n

/-! ## `str::parse::<f64>()` -/

/-- Split a character list at the first character satisfying `p`:
returns the part before it and, when found, the part after it. -/
def splitFirst (p : Char → Bool) : List Char → List Char × Option (List Char)
  | [] => ([], none)
  | c :: rest =>
    if p c then ([], some rest)
    else
      let r := splitFirst p rest
      (c :: r.1, r.2)

/-- ASCII lowercasing, as used by Rust's case-insensitive match of the
special float strings. -/
def asciiLower (c : Char) : Char :=
  if 65 ≤ c.toNat ∧ c.toNat ≤ 90 then Char.ofNat (c.toNat + 32) else c

/-- Exponent part of the float grammar: optional sign then digits. -/
def parseExpPart : List Char → Option Int
  | [] => none
  | '+' :: rest => if rest ≠ [] ∧ allDigits rest then some ((natOfDigits rest : Nat) : Int) else none
  | '-' :: rest => if rest ≠ [] ∧ allDigits rest then some (-((natOfDigits rest : Nat) : Int)) else none
  | l => if allDigits l then some ((natOfDigits l : Nat) : Int) else none

/-- Mantissa of the float grammar: `Digit+ | Digit+ . Digit* | Digit* . Digit+`.
Returns the value scaled to an integer together with its decimal scale. -/
def mantissaRaw (mant : List Char) : Option (Nat × Nat) :=
  match splitFirst (fun c => c == '.') mant with
  | (ip, none) =>
    if ip ≠ [] ∧ allDigits ip then some (natOfDigits ip, 0) else none
  | (ip, some fp) =>
    if allDigits ip ∧ allDigits fp ∧ (ip ≠ [] ∨ fp ≠ []) then
      some (natOfDigits ip * 10 ^ fp.length + natOfDigits fp, fp.length)
    else none

/-- Apply a decimal exponent to a scaled value. -/
def applyExp (v : Nat) (s : Nat) : Int → Nat × Nat
  | .ofNat k => (v * 10 ^ k, s)
  | .negSucc k => (v, s + (k + 1))

/-- `str::parse::<f64>()` on a character list: optional sign, then one of the
case-insensitive special strings `inf`/`infinity`/`nan`, or a decimal number
with optional exponent.  The numeric value is kept exactly. -/
def parse_f64_chars (l : List Char) : Option FloatVal :=
  let neg : Bool := match l with | c :: _ => c == '-' | [] => false
  let signed : Bool := match l with | c :: _ => c == '-' || c == '+' | [] => false
  let rest := if signed then l.tail else l
  let low := rest.map asciiLower
  if low = "inf".toList ∨ low = "infinity".toList then
    some (if neg then FloatVal.negInf else FloatVal.inf)
  else if low = "nan".toList then some FloatVal.nan
  else
    let core : Option (Nat × Nat) :=
      match splitFirst (fun c => c == 'e' || c == 'E') rest with
      | (mant, none) => mantissaRaw mant
      | (mant, some ep) =>
        match mantissaRaw mant, parseExpPart ep with
        | some (v, s), some e => some (applyExp v s e)
        | _, _ => none
    match core with
    | some (v, s) => some (mkFinite (if neg then -(v : Int) else (v : Int)) s)
    | none => none

/-- `str::parse::<f64>()` on a string. -/
def parse_f64 (s : String) : Option FloatVal := parse_f64_chars s.toList

/-! ## `Scraper::sanitize_price_string` -/

/-- One character list is an initial segment of another. -/
def matchesAt : List Char → List Char → Bool
  | [], _ => true
  | _ :: _, [] => false
  | p :: ps, c :: cs => p == c && matchesAt ps cs

/-- Fuelled engine of Rust's `str::replace`: replace every non-overlapping
occurrence of `pat` by `rep`, scanning left to right. -/
def replaceListF (pat rep : List Char) : Nat → List Char → List Char
  | 0, l => l
  | _+1, [] => []
  | fuel+1, c :: rest =>
    if pat ≠ [] ∧ matchesAt pat (c :: rest) then
      rep ++ replaceListF pat rep fuel (rest.drop (pat.length - 1))
    else c :: replaceListF pat rep fuel rest

/-- Rust's `str::replace` on character lists. -/
def replaceList (pat rep l : List Char) : List Char := replaceListF pat rep l.length l

/-- Rust's `char::is_whitespace` (the Unicode `White_Space` property). -/
def rustIsWhitespace (c : Char) : Bool :=
  decide ((9 ≤ c.toNat ∧ c.toNat ≤ 13) ∨ c.toNat = 32 ∨ c.toNat = 0x85 ∨
    c.toNat = 0xA0 ∨ c.toNat = 0x1680 ∨ (0x2000 ≤ c.toNat ∧ c.toNat ≤ 0x200A) ∨
    c.toNat = 0x2028 ∨ c.toNat = 0x2029 ∨ c.toNat = 0x202F ∨
    c.toNat = 0x205F ∨ c.toNat = 0x3000)

/-- The five rewrites of `Scraper::sanitize_price_string`
(`src/scraper.rs:177-182`), in source order: drop `"kr."`, drop `",-"`,
drop `'.'`, turn `','` into `'.'`, drop whitespace. -/
def sanitize_chars (l : List Char) : List Char :=
  (replaceList [','] ['.']
    (replaceList ['.'] []
      (replaceList [',', '-'] []
        (replaceList ['k', 'r', '.'] [] l)))).filter (fun c => !rustIsWhitespace c)

/-- `Scraper::sanitize_price_string` (`src/scraper.rs:175-187`): apply the
five rewrites, then parse as `f64`; a parse failure becomes an error. -/
def sanitize_price_string (price_string : String) : Except String FloatVal :=
  match parse_f64_chars (sanitize_chars price_string.toList) with
  | some v => Except.ok v
  | none => Except.error "Failed to parse price"

/-! ## Rendering of `f64` values (`std::fmt::Display`)

Rust prints the shortest decimal string that round-trips; on a canonical
scaled decimal that is exactly the mantissa digits with the decimal point
inserted `s` places from the right (no point when `s = 0`). -/

/-- Zero-pad a digit string so that an integer part is present when a
decimal point is inserted `k` places from the right. -/
def padDigits (ds : List Char) (k : Nat) : List Char :=
  if ds.length ≤ k then List.replicate (k + 1 - ds.length) '0' ++ ds else ds

/-- Insert a decimal point `k` places from the right of a digit string,
zero-padding so an integer part is always present (`1`,`2` → `0.01`). -/
def insertPoint (ds : List Char) (k : Nat) : List Char :=
  if k = 0 then ds
  else (padDigits ds k).take ((padDigits ds k).length - k) ++
    '.' :: (padDigits ds k).drop ((padDigits ds k).length - k)

/-- `std::fmt::Display` for the modelled `f64` values. -/
def renderFloat : FloatVal → String
  | .inf => "inf"
  | .negInf => "-inf"
  | .nan => "NaN"
  | .finite m s =>
    let ds := insertPoint (natDigits m.natAbs) s
    ⟨if m < 0 then '-' :: ds else ds⟩

/-! ## The HTTP operations and the per-provider pipeline -/

/-- `Scraper::add_price_for_provider` (`src/scraper.rs:130-158`): POST the
price; a transport failure of `send()` propagates (`?`), as does a body-read
failure on the success branch; a non-success status is only logged and the
function still returns `Ok(())`. -/
def add_price_for_provider (sendResult : Except ReqError HttpResponse) : Except ReqError Unit :=
  match sendResult with
  | .error e => .error e
  | .ok resp =>
    if resp.statusSuccess then
      match resp.text with
      | .error e => .error e
      | .ok _ => .ok ()
    else .ok ()

/-- The page fetch of `Scraper::handle_scraping` (`src/scraper.rs:216-217`):
`client.get(url).send().await?` then `response.text().await?`.  Note that
the response status is never examined. -/
def page_fetch (sendResult : Except ReqError HttpResponse) : Except ReqError String :=
  match sendResult with
  | .error e => .error e
  | .ok resp => resp.text

/-- `Scraper::extract_price` (`src/scraper.rs:284-298`): walk the selected
texts in document order; the first one that sanitizes to a value `> 0.0` is
reported (a report failure is only logged) and the loop returns; all others
are skipped.  Returns the reported price (if any) together with how many
candidates the loop evaluated. -/
def extract_price (reportSend : Except ReqError HttpResponse) :
    List String → Option FloatVal × Nat
  | [] => (none, 0)
  | c :: rest =>
    match sanitize_price_string c with
    | .ok price =>
      if fvGt0 price then
        match add_price_for_provider reportSend with
        | .error _ => (some price, 1)
        | .ok _ => (some price, 1)
      else
        let r := extract_price reportSend rest
        (r.1, r.2 + 1)
    | .error _ =>
      let r := extract_price reportSend rest
      (r.1, r.2 + 1)

/-- Outcome of one dispatched future: `Ok(())`, `Err(e)` via `?`, or a panic
from an `unwrap()`. -/
inductive TaskOutcome where
  | ok
  | err (e : ReqError)
  | panicked
deriving DecidableEq

/-- Whether an outcome is the panic outcome. -/
def TaskOutcome.isPanicked : TaskOutcome → Bool
  | .panicked => true
  | _ => false

/-- The effect environment of one provider pipeline: the result of each
fallible call site in the async block of `Scraper::handle_scraping`, plus the
HTML/selector engine (`Html::parse_document` + `Selector` matching, consumed
as an external capability mapping selector and body to the matched texts in
document order). -/
structure PipelineEnv where
  resolve : Except ReqError Provider
  selectorOk : String → Bool
  urlOk : String → Bool
  pageSend : Except ReqError HttpResponse
  select : String → String → List String
  reportSend : Except ReqError HttpResponse

/-- Result of one pipeline: its outcome and the `add_price_for_provider`
calls it issued (provider id and price). -/
structure PipelineResult where
  outcome : TaskOutcome
  reports : List (Int × FloatVal)
deriving DecidableEq

/-- The async block dispatched per provider by `Scraper::handle_scraping`
(`src/scraper.rs:209-223`): resolve the provider (`?`), `Selector::parse(..)
.unwrap()`, `Url::parse(..).unwrap()`, fetch the page (`?` on send and on
body read, no status check), then `extract_price` (which never fails). -/
def pipeline_task (env : PipelineEnv) : PipelineResult :=
  match env.resolve with
  | .error e => ⟨.err e, []⟩
  | .ok provider =>
    if env.selectorOk provider.html_element = false then ⟨.panicked, []⟩
    else if env.urlOk provider.url = false then ⟨.panicked, []⟩
    else
      match page_fetch env.pageSend with
      | .error e => ⟨.err e, []⟩
      | .ok body =>
        match extract_price env.reportSend (env.select provider.html_element body) with
        | (some price, _) => ⟨.ok, [(provider.id, price)]⟩
        | (none, _) => ⟨.ok, []⟩

/-! ## `Scraper::handle_scraping` and `Scraper::run` -/

/-- The loop `for result in results { result?; }` of `Scraper::handle_scraping`
(`src/scraper.rs:231-233`): the first `Err` in the collected vector wins. -/
def firstErr : List TaskOutcome → TaskOutcome
  | [] => .ok
  | TaskOutcome.err e :: _ => .err e
  | _ :: rest => firstErr rest

/-- Result of the scraping phase: its outcome and the vector of pipeline
results collected by `buffer_unordered(10).collect()`.  (On a panic the
vector never materializes.) -/
structure ScrapeResult where
  outcome : TaskOutcome
  results : List PipelineResult

/-- `Scraper::handle_scraping` (`src/scraper.rs:202-235`): dispatch one task
per catalog entry, await them all and collect every result, then surface the
first `Err`.  A panicking task unwinds through the `collect().await`. -/
def handle_scraping (provs : List Providers) (envOf : Providers → PipelineEnv) : ScrapeResult :=
  let results := provs.map (fun pr => pipeline_task (envOf pr))
  if results.any (fun r => r.outcome.isPanicked) then ⟨.panicked, []⟩
  else ⟨firstErr (results.map PipelineResult.outcome), results⟩

/-- Outcome of `Scraper::run` as seen by `main`: `Ok`, `Err(e)`, or a panic. -/
inductive RunOutcome where
  | ok
  | err (e : ReqError)
  | panicked
deriving DecidableEq

/-- The effect environment of one `Scraper::run` invocation: the result of
each fallible phase. -/
structure RunEnv where
  get_token : Except ReqError Token
  configureOk : Bool
  fetch_providers : Except ReqError (List Providers)
  envOf : Providers → PipelineEnv
  post_run : Except ReqError Unit

/-- What a run did: its outcome and whether `post_run` was invoked. -/
structure RunResult where
  outcome : RunOutcome
  postRunCalled : Bool
deriving DecidableEq

/-- `Scraper::run` (`src/scraper.rs:342-351`): `get_token()?`, then
`configure_client().unwrap()`, then `fetch_providers().unwrap()` — note the
`unwrap`: a catalog failure panics — then `handle_scraping()?`, and only if
that succeeded `post_run()?`. -/
def run (env : RunEnv) : RunResult :=
  match env.get_token with
  | .error e => ⟨.err e, false⟩
  | .ok _ =>
    if env.configureOk = false then ⟨.panicked, false⟩
    else
      match env.fetch_providers with
      | .error _ => ⟨.panicked, false⟩
      | .ok provs =>
        match (handle_scraping provs env.envOf).outcome with
        | .panicked => ⟨.panicked, false⟩
        | .err e => ⟨.err e, false⟩
        | .ok =>
          match env.post_run with
          | .error e => ⟨.err e, true⟩
          | .ok _ => ⟨.ok, true⟩

/-! ## Small-step model of `buffer_unordered(10)`

Each dispatched pipeline is abstracted to the number of suspension points it
still has to pass.  The scheduler may start a queued future only while fewer
than `cap` are in flight, may progress any in-flight future, and removes a
future that has finished; completion order is unconstrained. -/

/-- The concurrency cap passed to `buffer_unordered` in
`Scraper::handle_scraping` (`src/scraper.rs:227`). -/
def scrapeConcurrencyCap : Nat := 10

/-- Scheduler state: queued futures, in-flight futures (remaining suspension
points each), and the number of completed futures. -/
structure BufState where
  pending : List Nat
  inFlight : List Nat
  done : Nat
deriving DecidableEq

/-- One scheduler step of `buffer_unordered cap`. -/
inductive BufStep (cap : Nat) : BufState → BufState → Prop
  | start (t : Nat) (rest inF : List Nat) (d : Nat) :
      inF.length < cap → BufStep cap ⟨t :: rest, inF, d⟩ ⟨rest, t :: inF, d⟩
  | work (pend pre post : List Nat) (s d : Nat) :
      BufStep cap ⟨pend, pre ++ (s+1) :: post, d⟩ ⟨pend, pre ++ s :: post, d⟩
  | finish (pend pre post : List Nat) (d : Nat) :
      BufStep cap ⟨pend, pre ++ 0 :: post, d⟩ ⟨pend, pre ++ post, d + 1⟩

/-- Reachability under the scheduler. -/
inductive BufReachable (cap : Nat) : BufState → BufState → Prop
  | refl (s : BufState) : BufReachable cap s s
  | step {s t u : BufState} : BufReachable cap s t → BufStep cap t u → BufReachable cap s u

/-- Initial scheduler state for a list of dispatched futures. -/
def bufInit (tasks : List Nat) : BufState := ⟨tasks, [], 0⟩

/-! ## Derived notions and concrete environments used in the statements -/

/-- The price the candidate loop would accept from one text, if any:
its sanitized value when that value passes the `> 0.0` filter. -/
def usableOf (s : String) : Option FloatVal :=
  match sanitize_price_string s with
  | .ok p => if fvGt0 p then some p else none
  | .error _ => none

/-- A fully healthy pipeline environment for provider `pid`: resolution,
selector, URL, page fetch and price report all succeed, and the selector
matches one element whose text is `"kr. 199,-"`. -/
def goodEnv (pid : Int) : PipelineEnv where
  resolve := Except.ok ⟨pid, "acme", "http://x/p", ".price"⟩
  selectorOk := fun _ => true
  urlOk := fun _ => true
  pageSend := Except.ok ⟨true, Except.ok "<span class=x>kr. 199,-</span>"⟩
  select := fun _ _ => ["kr. 199,-"]
  reportSend := Except.ok ⟨true, Except.ok "created"⟩

/-- A pipeline environment whose provider carries an invalid selector
expression (`Selector::parse` fails). -/
def badSelEnv : PipelineEnv :=
  { goodEnv 2 with
    resolve := Except.ok ⟨2, "broken", "http://x/q", "<<not-a-selector"⟩
    selectorOk := fun _ => false }

/-- A pipeline environment whose selector matches a single element with the
digit-free text `"inf"`, for provider 7. -/
def envInf : PipelineEnv :=
  { goodEnv 7 with select := fun _ _ => ["inf"] }

/-- Run environment: authentication and client configuration succeed but the
catalog fetch fails. -/
def envCatalogFail : RunEnv where
  get_token := Except.ok ⟨"tok", "Bearer"⟩
  configureOk := true
  fetch_providers := Except.error "catalog unreachable"
  envOf := fun _ => goodEnv 1
  post_run := Except.ok ()

/-- Run environment: authentication itself fails. -/
def envAuthFail : RunEnv where
  get_token := Except.error "auth refused"
  configureOk := true
  fetch_providers := Except.ok [⟨1⟩]
  envOf := fun _ => goodEnv 1
  post_run := Except.ok ()

/-- Run environment with two providers where the second one's selector is
invalid. -/
def envBadSelector : RunEnv where
  get_token := Except.ok ⟨"tok", "Bearer"⟩
  configureOk := true
  fetch_providers := Except.ok [⟨1⟩, ⟨2⟩]
  envOf := fun pr => if pr.id = 1 then goodEnv 1 else badSelEnv
  post_run := Except.ok ()

/-- Pipeline environments for a five-provider catalog in which provider 3's
page fetch always fails and the others are healthy. -/
def envOf5 (pr : Providers) : PipelineEnv :=
  if pr.id = 3 then { goodEnv 3 with pageSend := Except.error "fetch refused" }
  else goodEnv pr.id

/-- Run environment for the five-provider catalog with provider 3 failing. -/
def envFive : RunEnv where
  get_token := Except.ok ⟨"tok", "Bearer"⟩
  configureOk := true
  fetch_providers := Except.ok [⟨1⟩, ⟨2⟩, ⟨3⟩, ⟨4⟩, ⟨5⟩]
  envOf := envOf5
  post_run := Except.ok ()

/-! ## Helper lemmas about the candidate loop -/

theorem extract_price_found (r : Except ReqError HttpResponse) (c : String)
    (cs : List String) (p : FloatVal) (h : usableOf c = some p) :
    extract_price r (c :: cs) = (some p, 1) := by
  cases hs : sanitize_price_string c with
  | ok v =>
    cases hg : fvGt0 v with
    | true =>
      simp only [usableOf, hs, hg, if_true] at h
      cases h
      simp only [extract_price, hs, hg, if_true]
      cases add_price_for_provider r <;> rfl
    | false => simp [usableOf, hs, hg] at h
  | error e => simp [usableOf, hs] at h

theorem extract_price_skip (r : Except ReqError HttpResponse) (c : String)
    (cs : List String) (h : usableOf c = none) :
    extract_price r (c :: cs) = ((extract_price r cs).1, (extract_price r cs).2 + 1) := by
  cases hs : sanitize_price_string c with
  | ok v =>
    cases hg : fvGt0 v with
    | true => simp [usableOf, hs, hg] at h
    | false => simp [extract_price, hs, hg]
  | error e => simp [extract_price, hs]

theorem extract_price_not_found (r : Except ReqError HttpResponse) (cs : List String)
    (h : ∀ s ∈ cs, usableOf s = none) :
    extract_price r cs = (none, cs.length) := by
  induction cs with
  | nil => rfl
  | cons c rest ih =>
    rw [extract_price_skip r c rest (h c (List.mem_cons_self c rest)),
      ih (fun s hs => h s (List.mem_cons_of_mem c hs))]
    rfl

theorem extract_price_first (r : Except ReqError HttpResponse) (pre : List String)
    (c : String) (post : List String) (p : FloatVal)
    (hpre : ∀ s ∈ pre, usableOf s = none) (hc : usableOf c = some p) :
    extract_price r (pre ++ c :: post) = (some p, pre.length + 1) := by
  induction pre with
  | nil => simpa using extract_price_found r c post p hc
  | cons a rest ih =>
    rw [List.cons_append, extract_price_skip r a _ (hpre a (List.mem_cons_self a rest)),
      ih (fun s hs => hpre s (List.mem_cons_of_mem a hs))]
    rfl

theorem isPanicked_eq_false (o : TaskOutcome) :
    o.isPanicked = false ↔ o ≠ TaskOutcome.panicked := by
  cases o <;> simp [TaskOutcome.isPanicked]

theorem isPanicked_eq_true (o : TaskOutcome) :
    o.isPanicked = true ↔ o = TaskOutcome.panicked := by
  cases o <;> simp [TaskOutcome.isPanicked]

theorem firstErr_all_ok (l : List TaskOutcome) (h : ∀ o ∈ l, o = TaskOutcome.ok) :
    firstErr l = TaskOutcome.ok := by
  induction l with
  | nil => rfl
  | cons o rest ih =>
    have ho := h o (List.mem_cons_self o rest)
    subst ho
    simpa [firstErr] using ih (fun o ho => h o (List.mem_cons_of_mem _ ho))

theorem firstErr_spec (l : List TaskOutcome) (h : ∀ o ∈ l, o ≠ TaskOutcome.panicked) :
    (firstErr l = TaskOutcome.ok ∧ ∀ o ∈ l, o = TaskOutcome.ok) ∨
    (∃ e pre post, l = pre ++ TaskOutcome.err e :: post ∧ (∀ o ∈ pre, o = TaskOutcome.ok) ∧
      firstErr l = TaskOutcome.err e) := by
  induction l with
  | nil => exact Or.inl ⟨rfl, by simp⟩
  | cons o rest ih =>
    cases o with
    | ok =>
      rcases ih (fun o ho => h o (List.mem_cons_of_mem _ ho)) with ⟨h1, h2⟩ | ⟨e, pre, post, hl, hpre, hf⟩
      · exact Or.inl ⟨by simpa [firstErr] using h1, by simpa using h2⟩
      · refine Or.inr ⟨e, TaskOutcome.ok :: pre, post, by rw [hl, List.cons_append], ?_,
          by simpa [firstErr] using hf⟩
        intro x hx
        rcases List.mem_cons.mp hx with hx | hx
        · exact hx
        · exact hpre x hx
    | err e => exact Or.inr ⟨e, [], rest, rfl, by simp, rfl⟩
    | panicked => exact absurd rfl (h _ (List.mem_cons_self _ _))

theorem handle_scraping_no_panic (provs : List Providers) (envOf : Providers → PipelineEnv)
    (h : ∀ pr ∈ provs, (pipeline_task (envOf pr)).outcome ≠ TaskOutcome.panicked) :
    handle_scraping provs envOf =
      ⟨firstErr ((provs.map (fun pr => pipeline_task (envOf pr))).map PipelineResult.outcome),
       provs.map (fun pr => pipeline_task (envOf pr))⟩ := by
  unfold handle_scraping
  rw [if_neg]
  intro hc
  rcases List.any_eq_true.mp hc with ⟨r, hr, hp⟩
  rcases List.mem_map.mp hr with ⟨pr, hpr, rfl⟩
  exact h pr hpr ((isPanicked_eq_true _).mp hp)

theorem handle_scraping_panic (provs : List Providers) (envOf : Providers → PipelineEnv)
    (pr : Providers) (hmem : pr ∈ provs)
    (h : (pipeline_task (envOf pr)).outcome = TaskOutcome.panicked) :
    handle_scraping provs envOf = ⟨TaskOutcome.panicked, []⟩ := by
  unfold handle_scraping
  rw [if_pos]
  exact List.any_eq_true.mpr
    ⟨pipeline_task (envOf pr), List.mem_map_of_mem _ hmem, by simp [h, TaskOutcome.isPanicked]⟩

theorem run_phases (env : RunEnv) (tok : Token) (provs : List Providers)
    (h1 : env.get_token = Except.ok tok) (h2 : env.configureOk = true)
    (h3 : env.fetch_providers = Except.ok provs) :
    run env =
      match (handle_scraping provs env.envOf).outcome with
      | .panicked => ⟨RunOutcome.panicked, false⟩
      | .err e => ⟨RunOutcome.err e, false⟩
      | .ok =>
        match env.post_run with
        | .error e => ⟨RunOutcome.err e, true⟩
        | .ok _ => ⟨RunOutcome.ok, true⟩ := by
  unfold run
  rw [h1, h2, h3]
  rfl

theorem bufStep_cap_preserved (cap : Nat) (s u : BufState) (h : BufStep cap s u)
    (hs : s.inFlight.length ≤ cap) : u.inFlight.length ≤ cap := by
  cases h with
  | start t rest inF d hlt => simpa using hlt
  | work pend pre post st d => simpa using hs
  | finish pend pre post d =>
    simp only [List.length_append, List.length_cons] at hs ⊢
    omega

theorem bufStep_growth (cap : Nat) (s u : BufState) (h : BufStep cap s u)
    (hg : s.inFlight.length < u.inFlight.length) : s.inFlight.length < cap := by
  cases h with
  | start t rest inF d hlt => simpa using hlt
  | work pend pre post st d => simp at hg
  | finish pend pre post d =>
    simp only [List.length_append, List.length_cons] at hg
    omega

theorem bufReachable_cap (cap : Nat) (tasks : List Nat) (s : BufState)
    (h : BufReachable cap (bufInit tasks) s) : s.inFlight.length ≤ cap := by
  induction h with
  | refl => simp [bufInit]
  | step hreach hstep ih => exact bufStep_cap_preserved cap _ _ hstep ih

theorem extract_price_report_irrelevant (r1 r2 : Except ReqError HttpResponse)
    (cs : List String) : extract_price r1 cs = extract_price r2 cs := by
  induction cs with
  | nil => rfl
  | cons c rest ih =>
    cases hs : sanitize_price_string c with
    | ok v =>
      cases hg : fvGt0 v with
      | true =>
        simp only [extract_price, hs, hg, if_true]
        cases add_price_for_provider r1 <;> cases add_price_for_provider r2 <;> rfl
      | false => simp [extract_price, hs, hg, ih]
    | error e => simp [extract_price, hs, ih]

/-! ## Claims -/

/-- C1: when authentication, client configuration and the catalog fetch have
succeeded and no pipeline panics, the scraping phase awaits every dispatched
pipeline and collects one result per catalog entry — each entry's result is
its own pipeline's, so a failing pipeline never prevents a sibling from
finishing — the phase outcome is `ok` iff every pipeline succeeded, a surfaced
failure is the first infrastructure failure of the collected vector
(established only once the whole vector exists), and when a failure is
surfaced `run` returns it and `post_run` is never called. -/
theorem c1_collect_all_surface_first (env : RunEnv) (tok : Token) (provs : List Providers)
    (h1 : env.get_token = Except.ok tok) (h2 : env.configureOk = true)
    (h3 : env.fetch_providers = Except.ok provs)
    (hnp : ∀ pr ∈ provs, (pipeline_task (env.envOf pr)).outcome ≠ TaskOutcome.panicked) :
    (handle_scraping provs env.envOf).results
        = provs.map (fun pr => pipeline_task (env.envOf pr)) ∧
    (handle_scraping provs env.envOf).results.length = provs.length ∧
    ((handle_scraping provs env.envOf).outcome = TaskOutcome.ok ↔
      ∀ r ∈ (handle_scraping provs env.envOf).results, r.outcome = TaskOutcome.ok) ∧
    (∀ e, (handle_scraping provs env.envOf).outcome = TaskOutcome.err e →
      ∃ pre post, (handle_scraping provs env.envOf).results.map PipelineResult.outcome
          = pre ++ TaskOutcome.err e :: post ∧ ∀ o ∈ pre, o = TaskOutcome.ok) ∧
    (∀ e, (handle_scraping provs env.envOf).outcome = TaskOutcome.err e →
      run env = ⟨RunOutcome.err e, false⟩) := by
  have hres := handle_scraping_no_panic provs env.envOf hnp
  have hnp' : ∀ o ∈ (provs.map (fun pr => pipeline_task (env.envOf pr))).map
      PipelineResult.outcome, o ≠ TaskOutcome.panicked := by
    intro o ho
    rcases List.mem_map.mp ho with ⟨r, hr, rfl⟩
    rcases List.mem_map.mp hr with ⟨pr, hpr, rfl⟩
    exact hnp pr hpr
  have hresults : (handle_scraping provs env.envOf).results
      = provs.map (fun pr => pipeline_task (env.envOf pr)) := by rw [hres]
  have hout : (handle_scraping provs env.envOf).outcome
      = firstErr ((provs.map (fun pr => pipeline_task (env.envOf pr))).map
          PipelineResult.outcome) := by rw [hres]
  refine ⟨hresults, by rw [hresults]; simp, ?_, ?_, ?_⟩
  · rw [hout, hresults]
    constructor
    · intro hok r hrmem
      rcases firstErr_spec _ hnp' with ⟨_, hall⟩ | ⟨e, pre, post, _, _, hf⟩
      · exact hall r.outcome (List.mem_map_of_mem _ hrmem)
      · rw [hf] at hok; cases hok
    · intro hall
      refine firstErr_all_ok _ (fun o ho => ?_)
      rcases List.mem_map.mp ho with ⟨r, hr, rfl⟩
      exact hall r hr
  · intro e he
    rw [hout] at he
    rw [hresults]
    rcases firstErr_spec _ hnp' with ⟨hko, _⟩ | ⟨e', pre, post, hl, hpre, hf⟩
    · rw [hko] at he; cases he
    · rw [hf] at he
      cases he
      exact ⟨pre, post, hl, hpre⟩
  · intro e he
    rw [run_phases env tok provs h1 h2 h3, he]

/-- Witness for C1 at the spec's isolation scenario: five providers with
provider 3's fetch failing; all five results are collected, siblings
1, 2, 4, 5 still report their prices, the surfaced failure is provider 3's
fetch error, and `post_run` is skipped. -/
theorem c1_witness :
    (handle_scraping [⟨1⟩, ⟨2⟩, ⟨3⟩, ⟨4⟩, ⟨5⟩] envFive.envOf).results.length
        = ([⟨1⟩, ⟨2⟩, ⟨3⟩, ⟨4⟩, ⟨5⟩] : List Providers).length ∧
    (handle_scraping [⟨1⟩, ⟨2⟩, ⟨3⟩, ⟨4⟩, ⟨5⟩] envFive.envOf).results
        = ([⟨1⟩, ⟨2⟩, ⟨3⟩, ⟨4⟩, ⟨5⟩] : List Providers).map
            (fun pr => pipeline_task (envFive.envOf pr)) ∧
    ([⟨1⟩, ⟨2⟩, ⟨3⟩, ⟨4⟩, ⟨5⟩] : List Providers).map
        (fun pr => pipeline_task (envFive.envOf pr))
        = [⟨TaskOutcome.ok, [(1, FloatVal.finite 199 0)]⟩,
           ⟨TaskOutcome.ok, [(2, FloatVal.finite 199 0)]⟩,
           ⟨TaskOutcome.err "fetch refused", []⟩,
           ⟨TaskOutcome.ok, [(4, FloatVal.finite 199 0)]⟩,
           ⟨TaskOutcome.ok, [(5, FloatVal.finite 199 0)]⟩] ∧
    run envFive = ⟨RunOutcome.err "fetch refused", false⟩ := by
  have h := c1_collect_all_surface_first envFive ⟨"tok", "Bearer"⟩
    [⟨1⟩, ⟨2⟩, ⟨3⟩, ⟨4⟩, ⟨5⟩] rfl rfl rfl (by decide)
  exact ⟨h.2.1, h.1, by decide, h.2.2.2.2 "fetch refused" (by decide)⟩

/-- C2: in the scheduler model of `buffer_unordered` at the code's cap of 10,
every state reachable from dispatch has at most 10 pipelines in flight, and
a step that brings a new pipeline in flight is enabled only from a state
with a free slot — the 11th and later pipelines stay queued. -/
theorem c2_at_most_ten_in_flight (tasks : List Nat) (s : BufState)
    (h : BufReachable scrapeConcurrencyCap (bufInit tasks) s) :
    s.inFlight.length ≤ scrapeConcurrencyCap ∧
    ∀ u, BufStep scrapeConcurrencyCap s u →
      s.inFlight.length < u.inFlight.length → s.inFlight.length < scrapeConcurrencyCap :=
  ⟨bufReachable_cap _ tasks s h, fun u hstep hg => bufStep_growth _ s u hstep hg⟩

/-- Witness for C2: a concrete reachable state (one future started). -/
theorem c2_witness : ((⟨[7], [2], 0⟩ : BufState) : BufState).inFlight.length ≤ scrapeConcurrencyCap :=
  (c2_at_most_ten_in_flight [2, 7] ⟨[7], [2], 0⟩
    (BufReachable.step (BufReachable.refl _) (BufStep.start 2 [7] [] 0 (by decide)))).1

/-- C3: candidate selection is first-match and short-circuiting: the first
candidate whose sanitized value passes the `> 0.0` filter is reported and
the loop stops having evaluated only the candidates up to and including it;
unusable candidates are skipped silently; with no usable candidate the loop
ends with `none` (the "no price found" outcome, not an error) having
evaluated the whole list; on `["abc", "50,00", "99,00"]` the reported price
is 50 and exactly two candidates are ever evaluated. -/
theorem c3_first_match_short_circuit :
    (∀ (r : Except ReqError HttpResponse) (pre : List String) (c : String)
        (post : List String) (p : FloatVal),
      (∀ s ∈ pre, usableOf s = none) → usableOf c = some p →
      extract_price r (pre ++ c :: post) = (some p, pre.length + 1)) ∧
    (∀ (r : Except ReqError HttpResponse) (cs : List String),
      (∀ s ∈ cs, usableOf s = none) → extract_price r cs = (none, cs.length)) ∧
    (∀ r : Except ReqError HttpResponse,
      extract_price r ["abc", "50,00", "99,00"] = (some (FloatVal.finite 50 0), 2)) := by
  refine ⟨extract_price_first, extract_price_not_found, fun r => ?_⟩
  have h := extract_price_first r ["abc"] "50,00" ["99,00"] (FloatVal.finite 50 0)
    (by decide) (by decide)
  simpa using h

/-- Witness for C3: the spec's example list, first usable candidate at
position 1, so exactly 2 candidates are evaluated. -/
theorem c3_witness :
    extract_price (Except.ok ⟨true, Except.ok "created"⟩) (["abc"] ++ "50,00" :: ["99,00"])
      = (some (FloatVal.finite 50 0), ["abc"].length + 1) :=
  c3_first_match_short_circuit.1 (Except.ok ⟨true, Except.ok "created"⟩) ["abc"] "50,00"
    ["99,00"] (FloatVal.finite 50 0) (by decide) (by decide)

/-- C4: the normalizer fails exactly when the final float parse fails, and on
the spec's examples: `"kr. 199,-"` gives 199, `"1.234,56"` gives 1234.56
(exactly the rational 123456/100), `"abc"` fails. -/
theorem c4_sanitize_examples :
    (∀ s, (sanitize_price_string s).isOk = (parse_f64_chars (sanitize_chars s.toList)).isSome) ∧
    sanitize_price_string "kr. 199,-" = Except.ok (FloatVal.finite 199 0) ∧
    (FloatVal.finite 199 0).toQ = 199 ∧
    sanitize_price_string "1.234,56" = Except.ok (FloatVal.finite 123456 2) ∧
    (FloatVal.finite 123456 2).toQ = 1234.56 ∧
    (sanitize_price_string "abc").isOk = false := by
  refine ⟨fun s => ?_, by decide, ?_, by decide, ?_, by decide⟩
  · unfold sanitize_price_string
    cases parse_f64_chars (sanitize_chars s.toList) <;> rfl
  · norm_num [FloatVal.toQ, pow10]
  · norm_num [FloatVal.toQ, pow10]

/-- C6 counterexample: with authentication and configuration succeeding and
the catalog fetch failing, `run` panics (the `unwrap` on `fetch_providers`);
the failure is not surfaced as a recoverable error, unlike an authentication
failure.  `post_run` is indeed never called. -/
theorem c6_counterexample : run envCatalogFail = ⟨RunOutcome.panicked, false⟩ := rfl

/-- C6 amended: a catalog fetch failure aborts the run without calling
`post_run`, but by panicking (`fetch_providers().unwrap()`), not by
surfacing a recoverable error — in contrast to an authentication failure,
which is returned to the caller as a recoverable error. -/
theorem c6_amended_catalog_failure_panics :
    (∀ (env : RunEnv) (tok : Token) (e : ReqError),
      env.get_token = Except.ok tok → env.configureOk = true →
      env.fetch_providers = Except.error e → run env = ⟨RunOutcome.panicked, false⟩) ∧
    (∀ (env : RunEnv) (e : ReqError),
      env.get_token = Except.error e → run env = ⟨RunOutcome.err e, false⟩) := by
  constructor
  · intro env tok e h1 h2 h3
    unfold run
    rw [h1, h2, h3]
    rfl
  · intro env e h1
    unfold run
    rw [h1]

/-- Witness for C6: concrete runs exercising both amended branches. -/
theorem c6_witness :
    run envCatalogFail = ⟨RunOutcome.panicked, false⟩ ∧
    run envAuthFail = ⟨RunOutcome.err "auth refused", false⟩ :=
  ⟨c6_amended_catalog_failure_panics.1 envCatalogFail ⟨"tok", "Bearer"⟩
      "catalog unreachable" rfl rfl rfl,
   c6_amended_catalog_failure_panics.2 envAuthFail "auth refused" rfl⟩

/-- C7 counterexample: a provider with an invalid selector makes its pipeline
panic (`Selector::parse(..).unwrap()`), the panic propagates through the
scraping phase, and the whole run crashes — the sibling pipeline's result is
lost with it, contradicting a scoped, logged `SelectorError`. -/
theorem c7_counterexample :
    pipeline_task badSelEnv = ⟨TaskOutcome.panicked, []⟩ ∧
    (handle_scraping [⟨1⟩, ⟨2⟩] envBadSelector.envOf).outcome = TaskOutcome.panicked ∧
    run envBadSelector = ⟨RunOutcome.panicked, false⟩ := by decide

/-- C7 amended: an invalid selector expression causes a panic in that
provider's pipeline, and the panic crashes the entire run (no scoped
`SelectorError`, `post_run` skipped). -/
theorem c7_amended_invalid_selector_panics_run :
    (∀ (env : PipelineEnv) (p : Provider), env.resolve = Except.ok p →
      env.selectorOk p.html_element = false →
      pipeline_task env = ⟨TaskOutcome.panicked, []⟩) ∧
    (∀ (provs : List Providers) (envOf : Providers → PipelineEnv) (pr : Providers),
      pr ∈ provs → (pipeline_task (envOf pr)).outcome = TaskOutcome.panicked →
      handle_scraping provs envOf = ⟨TaskOutcome.panicked, []⟩) ∧
    (∀ (env : RunEnv) (tok : Token) (provs : List Providers) (pr : Providers),
      env.get_token = Except.ok tok → env.configureOk = true →
      env.fetch_providers = Except.ok provs → pr ∈ provs →
      (pipeline_task (env.envOf pr)).outcome = TaskOutcome.panicked →
      run env = ⟨RunOutcome.panicked, false⟩) := by
  refine ⟨?_, ?_, ?_⟩
  · intro env p h1 h2
    unfold pipeline_task
    rw [h1]
    simp [h2]
  · intro provs envOf pr hmem h
    exact handle_scraping_panic provs envOf pr hmem h
  · intro env tok provs pr h1 h2 h3 hmem h
    rw [run_phases env tok provs h1 h2 h3, handle_scraping_panic provs env.envOf pr hmem h]

/-- Witness for C7: the concrete bad-selector environment. -/
theorem c7_witness :
    pipeline_task badSelEnv = ⟨TaskOutcome.panicked, []⟩ ∧
    run envBadSelector = ⟨RunOutcome.panicked, false⟩ :=
  ⟨c7_amended_invalid_selector_panics_run.1 badSelEnv
      ⟨2, "broken", "http://x/q", "<<not-a-selector"⟩ rfl rfl,
   c7_amended_invalid_selector_panics_run.2.2 envBadSelector ⟨"tok", "Bearer"⟩
      [⟨1⟩, ⟨2⟩] ⟨2⟩ rfl rfl rfl (by decide) (by decide)⟩

/-- C8 counterexample: a response with a non-success HTTP status is not a
fetch error — its body is returned for HTML parsing unchanged. -/
theorem c8_counterexample :
    page_fetch (Except.ok ⟨false, Except.ok "<html>404 page</html>"⟩)
      = Except.ok "<html>404 page</html>" := rfl

/-- C8 amended: the page fetch fails iff the transport fails (sending the
GET, or reading the body); the HTTP status is never examined, and the
pipeline behaves identically whatever the status flag of the response. -/
theorem c8_amended_no_status_check :
    (∀ e, page_fetch (Except.error e) = Except.error e) ∧
    (∀ st e, page_fetch (Except.ok ⟨st, Except.error e⟩) = Except.error e) ∧
    (∀ st b, page_fetch (Except.ok ⟨st, Except.ok b⟩) = Except.ok b) ∧
    (∀ (env : PipelineEnv) (st1 st2 : Bool) (t : Except ReqError String),
      pipeline_task { env with pageSend := Except.ok ⟨st1, t⟩ }
        = pipeline_task { env with pageSend := Except.ok ⟨st2, t⟩ }) := by
  refine ⟨fun e => rfl, fun st e => rfl, fun st b => rfl, fun env st1 st2 t => ?_⟩
  obtain ⟨res, sel, url, ps, selct, rs⟩ := env
  rfl

/-- C9: a `reportPrice` failure never aborts the owning pipeline: a
non-success status yields `Ok(())` from `add_price_for_provider` (logged
only); a transport failure is an `Err` from `add_price_for_provider`, but
`extract_price` catches and logs it, so the candidate loop — and therefore
the whole pipeline — produces the identical result whatever the report
outcome. -/
theorem c9_report_price_never_aborts_pipeline :
    (∀ t, add_price_for_provider (Except.ok ⟨false, t⟩) = Except.ok ()) ∧
    (∀ e, add_price_for_provider (Except.error e) = Except.error e) ∧
    (∀ (r1 r2 : Except ReqError HttpResponse) (cs : List String),
      extract_price r1 cs = extract_price r2 cs) ∧
    (∀ (env : PipelineEnv) (r1 r2 : Except ReqError HttpResponse),
      pipeline_task { env with reportSend := r1 }
        = pipeline_task { env with reportSend := r2 }) := by
  refine ⟨fun t => rfl, fun e => rfl, extract_price_report_irrelevant, fun env r1 r2 => ?_⟩
  obtain ⟨res, sel, url, ps, selct, rs⟩ := env
  unfold pipeline_task
  simp only [extract_price_report_irrelevant r1 r2]

/-- C10: the digit-free input `"inf"` sanitizes successfully to `+inf`,
which passes the `price > 0.0` filter and is reported — the acceptance
condition does not imply the reported price is finite. -/
theorem c10_nonfinite_price_reported :
    (∀ c ∈ "inf".toList, isDigitC c = false) ∧
    sanitize_price_string "inf" = Except.ok FloatVal.inf ∧
    fvGt0 FloatVal.inf = true ∧
    usableOf "inf" = some FloatVal.inf ∧
    pipeline_task envInf = ⟨TaskOutcome.ok, [(7, FloatVal.inf)]⟩ := by
  exact ⟨by decide, by decide, by decide, by decide, by decide⟩

/-! ## Digit and rendering lemmas (for the re-normalization claim) -/

theorem char_ne_of_toNat_ne {c d : Char} (h : c.toNat ≠ d.toNat) : c ≠ d :=
  fun he => h (congrArg Char.toNat he)

theorem isDigitC_toNat {c : Char} (h : isDigitC c = true) :
    48 ≤ c.toNat ∧ c.toNat ≤ 57 := by
  simpa [isDigitC] using h

theorem digit_not_special {c : Char} (h : isDigitC c = true) :
    c ≠ 'k' ∧ c ≠ ',' ∧ (c == '.') = false ∧ (c == 'e' || c == 'E') = false ∧
    (c == '-') = false ∧ (c == '+') = false ∧ rustIsWhitespace c = false ∧
    asciiLower c = c := by
  obtain ⟨h1, h2⟩ := isDigitC_toNat h
  refine ⟨char_ne_of_toNat_ne (by rw [show ('k').toNat = 107 from rfl]; omega),
    char_ne_of_toNat_ne (by rw [show (',').toNat = 44 from rfl]; omega),
    beq_eq_false_iff_ne.mpr (char_ne_of_toNat_ne (by rw [show ('.').toNat = 46 from rfl]; omega)),
    ?_, beq_eq_false_iff_ne.mpr (char_ne_of_toNat_ne (by rw [show ('-').toNat = 45 from rfl]; omega)),
    beq_eq_false_iff_ne.mpr (char_ne_of_toNat_ne (by rw [show ('+').toNat = 43 from rfl]; omega)),
    ?_, ?_⟩
  · rw [beq_eq_false_iff_ne.mpr (char_ne_of_toNat_ne
        (by rw [show ('e').toNat = 101 from rfl]; omega)),
      beq_eq_false_iff_ne.mpr (char_ne_of_toNat_ne
        (by rw [show ('E').toNat = 69 from rfl]; omega))]
    rfl
  · unfold rustIsWhitespace
    rw [decide_eq_false_iff_not]
    intro hw
    omega
  · unfold asciiLower
    rw [if_neg]
    omega

theorem digitChar_isDigit {m : Nat} (h : m < 10) : isDigitC (digitChar m) = true := by
  interval_cases m <;> decide

theorem digVal_digitChar {m : Nat} (h : m < 10) : digVal (digitChar m) = m := by
  interval_cases m <;> decide

theorem natOfDigits_snoc (l : List Char) (c : Char) :
    natOfDigits (l ++ [c]) = 10 * natOfDigits l + digVal c := by
  simp [natOfDigits, List.foldl_append]

theorem foldl_zeros (k : Nat) :
    (List.replicate k '0').foldl (fun n c => 10 * n + digVal c) 0 = 0 := by
  induction k with
  | zero => rfl
  | succ k ih => simpa [List.replicate_succ, digVal] using ih

theorem natOfDigits_zeros (k : Nat) (l : List Char) :
    natOfDigits (List.replicate k '0' ++ l) = natOfDigits l := by
  simp [natOfDigits, List.foldl_append, foldl_zeros]

theorem natDigitsF_spec : ∀ fuel n, n < fuel →
    natOfDigits (natDigitsF fuel n) = n ∧ natDigitsF fuel n ≠ [] ∧
    (∀ c ∈ natDigitsF fuel n, isDigitC c = true) := by
  intro fuel
  induction fuel with
  | zero => intro n h; omega
  | succ f ih =>
    intro n h
    by_cases h10 : n < 10
    · simp only [natDigitsF, if_pos h10]
      refine ⟨?_, by simp, ?_⟩
      · simp [natOfDigits, digVal_digitChar h10]
      · intro c hc
        rw [List.mem_singleton.mp hc]
        exact digitChar_isDigit h10
    · have hdiv : n / 10 < f := by
        have h2 : n / 10 < n := Nat.div_lt_self (by omega) (by norm_num)
        omega
      obtain ⟨ih1, ih2, ih3⟩ := ih (n / 10) hdiv
      simp only [natDigitsF, if_neg h10]
      refine ⟨?_, by simp, ?_⟩
      · rw [natOfDigits_snoc, ih1, digVal_digitChar (Nat.mod_lt n (by norm_num))]
        omega
      · intro c hc
        rcases List.mem_append.mp hc with h1 | h1
        · exact ih3 c h1
        · rw [List.mem_singleton.mp h1]
          exact digitChar_isDigit (Nat.mod_lt n (by norm_num))

theorem natDigits_spec (n : Nat) :
    natOfDigits (natDigits n) = n ∧ natDigits n ≠ [] ∧
    (∀ c ∈ natDigits n, isDigitC c = true) :=
  natDigitsF_spec (n + 1) n (Nat.lt_succ_self n)

theorem splitFirst_none (p : Char → Bool) (l : List Char)
    (h : ∀ c ∈ l, p c = false) : splitFirst p l = (l, none) := by
  induction l with
  | nil => rfl
  | cons c rest ih =>
    unfold splitFirst
    rw [if_neg (by rw [h c (List.mem_cons_self c rest)]; exact Bool.false_ne_true),
      ih (fun c hc => h c (List.mem_cons_of_mem _ hc))]

theorem map_id_of {f : Char → Char} {l : List Char} (h : ∀ c ∈ l, f c = c) :
    l.map f = l := by
  induction l with
  | nil => rfl
  | cons c rest ih =>
    rw [List.map_cons, h c (List.mem_cons_self c rest),
      ih (fun c hc => h c (List.mem_cons_of_mem _ hc))]

theorem replaceListF_id (a : Char) (ps rep : List Char) :
    ∀ (fuel : Nat) (l : List Char), a ∉ l → replaceListF (a :: ps) rep fuel l = l := by
  intro fuel
  induction fuel with
  | zero => intro l _; rfl
  | succ f ih =>
    intro l hl
    cases l with
    | nil => rfl
    | cons c rest =>
      have hac : (a == c) = false :=
        beq_eq_false_iff_ne.mpr (fun he => hl (he ▸ List.mem_cons_self c rest))
      unfold replaceListF
      rw [if_neg]
      · rw [ih rest (fun hm => hl (List.mem_cons_of_mem c hm))]
      · intro hcond
        have := hcond.2
        rw [matchesAt, hac, Bool.false_and] at this
        exact Bool.false_ne_true this

theorem replaceList_id (a : Char) (ps rep : List Char) (l : List Char) (h : a ∉ l) :
    replaceList (a :: ps) rep l = l := replaceListF_id a ps rep l.length l h

theorem replaceListF_del (a : Char) :
    ∀ (fuel : Nat) (l : List Char), l.length ≤ fuel →
      replaceListF [a] [] fuel l = l.filter (fun c => !(c == a)) := by
  intro fuel
  induction fuel with
  | zero =>
    intro l h
    have hl : l = [] := List.length_eq_zero.mp (by omega)
    subst hl
    rfl
  | succ f ih =>
    intro l h
    cases l with
    | nil => rfl
    | cons c rest =>
      have hrest : rest.length ≤ f := by
        simpa using Nat.le_of_succ_le_succ (by simpa using h)
      by_cases hac : a = c
      · subst hac
        unfold replaceListF
        rw [if_pos ⟨by simp, by simp [matchesAt]⟩]
        simp only [List.nil_append, List.length_cons, List.length_nil]
        rw [show (1 - 1 : Nat) = 0 from rfl, List.drop_zero, ih rest hrest]
        simp [List.filter_cons]
      · unfold replaceListF
        rw [if_neg]
        · rw [ih rest hrest, List.filter_cons]
          have : (c == a) = false := beq_eq_false_iff_ne.mpr (fun he => hac he.symm)
          simp [this]
        · intro hcond
          have := hcond.2
          rw [matchesAt, beq_eq_false_iff_ne.mpr hac, Bool.false_and] at this
          exact Bool.false_ne_true this

theorem replaceList_del (a : Char) (l : List Char) :
    replaceList [a] [] l = l.filter (fun c => !(c == a)) :=
  replaceListF_del a l.length l (Nat.le_refl _)

theorem filter_no_dot (l : List Char) (h : ∀ c ∈ l, isDigitC c = true) :
    l.filter (fun c => !(c == '.')) = l := by
  rw [List.filter_eq_self]
  intro c hc
  obtain ⟨-, -, hdot, -⟩ := digit_not_special (h c hc)
  simp [hdot]

/-- On a list of digits, dots and minus signs, the five rewrites of
`sanitize_price_string` amount to deleting the dots: `"kr."`, `",-"` and
`","` never occur, and no whitespace is present. -/
theorem sanitize_chars_clean (l : List Char)
    (h : ∀ c ∈ l, isDigitC c = true ∨ c = '.' ∨ c = '-') :
    sanitize_chars l = l.filter (fun c => !(c == '.')) := by
  have hk : 'k' ∉ l := by
    intro hm
    rcases h 'k' hm with hd | he | he
    · exact absurd hd (by decide)
    · exact absurd he (by decide)
    · exact absurd he (by decide)
  have hcomma : ',' ∉ l := by
    intro hm
    rcases h ',' hm with hd | he | he
    · exact absurd hd (by decide)
    · exact absurd he (by decide)
    · exact absurd he (by decide)
  have hcomma2 : ',' ∉ l.filter (fun c => !(c == '.')) :=
    fun hm => hcomma (List.mem_of_mem_filter hm)
  unfold sanitize_chars
  rw [replaceList_id 'k' ['r', '.'] [] l hk, replaceList_id ',' ['-'] [] l hcomma,
    replaceList_del '.' l, replaceList_id ',' [] ['.'] _ hcomma2,
    List.filter_eq_self.mpr]
  intro c hc
  have hcl := List.mem_of_mem_filter hc
  rcases h c hcl with hd | he | he
  · obtain ⟨-, -, -, -, -, -, hws, -⟩ := digit_not_special hd
    simp [hws]
  · subst he; decide
  · subst he; decide

theorem padDigits_digits (ds : List Char) (k : Nat)
    (hd : ∀ c ∈ ds, isDigitC c = true) :
    ∀ c ∈ padDigits ds k, isDigitC c = true := by
  intro c hc
  unfold padDigits at hc
  by_cases hlen : ds.length ≤ k
  · rw [if_pos hlen] at hc
    rcases List.mem_append.mp hc with h1 | h1
    · rw [List.eq_of_mem_replicate h1]; decide
    · exact hd c h1
  · rw [if_neg hlen] at hc
    exact hd c hc

theorem natOfDigits_padDigits (ds : List Char) (k : Nat) :
    natOfDigits (padDigits ds k) = natOfDigits ds := by
  unfold padDigits
  by_cases hlen : ds.length ≤ k
  · rw [if_pos hlen, natOfDigits_zeros]
  · rw [if_neg hlen]

theorem padDigits_ne (ds : List Char) (k : Nat) (h : ds ≠ []) :
    padDigits ds k ≠ [] := by
  unfold padDigits
  by_cases hlen : ds.length ≤ k
  · rw [if_pos hlen]
    intro hc
    exact h (List.append_eq_nil.mp hc).2
  · rw [if_neg hlen]
    exact h

theorem insertPoint_mem (ds : List Char) (k : Nat)
    (hd : ∀ c ∈ ds, isDigitC c = true) :
    ∀ c ∈ insertPoint ds k, isDigitC c = true ∨ c = '.' := by
  intro c hc
  unfold insertPoint at hc
  by_cases hk : k = 0
  · rw [if_pos hk] at hc
    exact Or.inl (hd c hc)
  · rw [if_neg hk] at hc
    have hp := padDigits_digits ds k hd
    rcases List.mem_append.mp hc with h1 | h1
    · exact Or.inl (hp c (List.take_subset _ _ h1))
    · rcases List.mem_cons.mp h1 with rfl | h2
      · exact Or.inr rfl
      · exact Or.inl (hp c (List.drop_subset _ _ h2))

theorem filter_dot_insertPoint (ds : List Char) (k : Nat)
    (hd : ∀ c ∈ ds, isDigitC c = true) :
    (insertPoint ds k).filter (fun c => !(c == '.')) =
      if k = 0 then ds else padDigits ds k := by
  unfold insertPoint
  by_cases hk : k = 0
  · rw [if_pos hk, if_pos hk, filter_no_dot ds hd]
  · rw [if_neg hk, if_neg hk, List.filter_append, List.filter_cons]
    have hp := padDigits_digits ds k hd
    simp only [show (('.' == '.') : Bool) = true from rfl, Bool.not_true]
    rw [if_neg Bool.false_ne_true,
      filter_no_dot _ (fun c hc => hp c (List.take_subset _ _ hc)),
      filter_no_dot _ (fun c hc => hp c (List.drop_subset _ _ hc)),
      List.take_append_drop]

theorem parse_digits (l : List Char) (hne : l ≠ []) (hd : ∀ c ∈ l, isDigitC c = true) :
    parse_f64_chars l = some (FloatVal.finite ((natOfDigits l : Nat) : Int) 0) := by
  cases l with
  | nil => exact absurd rfl hne
  | cons c rest =>
    have hc := hd c (List.mem_cons_self c rest)
    obtain ⟨-, -, -, -, hminus, hplus, -, -⟩ := digit_not_special hc
    have hmap : (c :: rest).map asciiLower = c :: rest :=
      map_id_of (fun x hx => (digit_not_special (hd x hx)).2.2.2.2.2.2.2)
    have hsplit_e : splitFirst (fun x => x == 'e' || x == 'E') (c :: rest)
        = (c :: rest, none) :=
      splitFirst_none _ _ (fun x hx => (digit_not_special (hd x hx)).2.2.2.1)
    have hsplit_dot : splitFirst (fun x => x == '.') (c :: rest) = (c :: rest, none) :=
      splitFirst_none _ _ (fun x hx => (digit_not_special (hd x hx)).2.2.1)
    have hall : allDigits (c :: rest) = true :=
      List.all_eq_true.mpr (fun x hx => hd x hx)
    have hinf : ¬((c :: rest) = "inf".toList ∨ (c :: rest) = "infinity".toList) := by
      rintro (he | he) <;> (rw [he] at hall; exact absurd hall (by decide))
    have hnan : ¬((c :: rest) = "nan".toList) := by
      intro he
      rw [he] at hall
      exact absurd hall (by decide)
    unfold parse_f64_chars
    simp only [hminus, hplus, Bool.or_self, Bool.false_eq_true, if_false, hmap,
      if_neg hinf, if_neg hnan, hsplit_e]
    unfold mantissaRaw
    rw [hsplit_dot]
    simp [List.cons_ne_nil, hall, mkFinite, stripZeros]

theorem parse_neg_digits (l : List Char) (hne : l ≠ []) (hd : ∀ c ∈ l, isDigitC c = true) :
    parse_f64_chars ('-' :: l) = some (FloatVal.finite (-((natOfDigits l : Nat) : Int)) 0) := by
  cases l with
  | nil => exact absurd rfl hne
  | cons c rest =>
    have hmap : (c :: rest).map asciiLower = c :: rest :=
      map_id_of (fun x hx => (digit_not_special (hd x hx)).2.2.2.2.2.2.2)
    have hsplit_e : splitFirst (fun x => x == 'e' || x == 'E') (c :: rest)
        = (c :: rest, none) :=
      splitFirst_none _ _ (fun x hx => (digit_not_special (hd x hx)).2.2.2.1)
    have hsplit_dot : splitFirst (fun x => x == '.') (c :: rest) = (c :: rest, none) :=
      splitFirst_none _ _ (fun x hx => (digit_not_special (hd x hx)).2.2.1)
    have hall : allDigits (c :: rest) = true :=
      List.all_eq_true.mpr (fun x hx => hd x hx)
    have hinf : ¬((c :: rest) = "inf".toList ∨ (c :: rest) = "infinity".toList) := by
      rintro (he | he) <;> (rw [he] at hall; exact absurd hall (by decide))
    have hnan : ¬((c :: rest) = "nan".toList) := by
      intro he
      rw [he] at hall
      exact absurd hall (by decide)
    unfold parse_f64_chars
    simp only [show (('-' == '-') : Bool) = true from rfl, Bool.true_or, if_true,
      List.tail_cons, hmap, if_neg hinf, if_neg hnan, hsplit_e]
    unfold mantissaRaw
    rw [hsplit_dot]
    simp [List.cons_ne_nil, hall, mkFinite, stripZeros]

/-- C5 counterexample: `"1.234,56"` normalizes to 1234.56; the decimal
rendering of that value is `"1234.56"`, and re-normalizing it yields 123456 —
a different number — because the '.'-removal step treats the rendered
decimal point as a thousands separator. -/
theorem c5_counterexample :
    sanitize_price_string "1.234,56" = Except.ok (FloatVal.finite 123456 2) ∧
    renderFloat (FloatVal.finite 123456 2) = "1234.56" ∧
    sanitize_price_string "1234.56" = Except.ok (FloatVal.finite 123456 0) ∧
    FloatVal.finite 123456 0 ≠ FloatVal.finite 123456 2 ∧
    (FloatVal.finite 123456 0).toQ ≠ (FloatVal.finite 123456 2).toQ := by
  refine ⟨by decide, by decide, by decide, by decide, ?_⟩
  norm_num [FloatVal.toQ, pow10]

/-- C5 amended: re-normalizing the decimal rendering of a successfully
normalized finite value always succeeds, but the '.'-removal step strips the
rendered decimal point, so the result is the mantissa as an integer: for
every finite value `m / 10^s`, re-normalization yields exactly `m`.  The
claimed idempotence therefore holds precisely for values whose rendering
contains no decimal point — in particular every integral value (`s = 0`) —
and fails for every non-integral value, which is scaled by `10^s`.  (The
non-finite value `inf` also round-trips.) -/
theorem c5_renormalization_drops_the_point :
    (∀ (m : Int) (s : Nat), sanitize_price_string (renderFloat (FloatVal.finite m s))
        = Except.ok (FloatVal.finite m 0)) ∧
    sanitize_price_string (renderFloat FloatVal.inf) = Except.ok FloatVal.inf := by
  refine ⟨fun m s => ?_, by decide⟩
  obtain ⟨hval, hne, hdig⟩ := natDigits_spec m.natAbs
  have hclean0 : ∀ c ∈ insertPoint (natDigits m.natAbs) s,
      isDigitC c = true ∨ c = '.' ∨ c = '-' := by
    intro c hc
    rcases insertPoint_mem (natDigits m.natAbs) s hdig c hc with h | h
    · exact Or.inl h
    · exact Or.inr (Or.inl h)
  have hfilter := filter_dot_insertPoint (natDigits m.natAbs) s hdig
  have hDdig : ∀ c ∈ (if s = 0 then natDigits m.natAbs else padDigits (natDigits m.natAbs) s),
      isDigitC c = true := by
    by_cases hs : s = 0
    · rw [if_pos hs]; exact hdig
    · rw [if_neg hs]; exact padDigits_digits _ _ hdig
  have hDne : (if s = 0 then natDigits m.natAbs else padDigits (natDigits m.natAbs) s) ≠ [] := by
    by_cases hs : s = 0
    · rw [if_pos hs]; exact hne
    · rw [if_neg hs]; exact padDigits_ne _ _ hne
  have hDval : natOfDigits (if s = 0 then natDigits m.natAbs
      else padDigits (natDigits m.natAbs) s) = m.natAbs := by
    by_cases hs : s = 0
    · rw [if_pos hs, hval]
    · rw [if_neg hs, natOfDigits_padDigits, hval]
  simp only [renderFloat]
  by_cases hm : m < 0
  · rw [if_pos hm]
    unfold sanitize_price_string
    have htl : (String.mk ('-' :: insertPoint (natDigits m.natAbs) s)).toList
        = '-' :: insertPoint (natDigits m.natAbs) s := rfl
    rw [htl]
    have hclean' : ∀ c ∈ '-' :: insertPoint (natDigits m.natAbs) s,
        isDigitC c = true ∨ c = '.' ∨ c = '-' := by
      intro c hc
      rcases List.mem_cons.mp hc with rfl | hc
      · exact Or.inr (Or.inr rfl)
      · exact hclean0 c hc
    rw [sanitize_chars_clean _ hclean', List.filter_cons]
    simp only [show ((('-' : Char) == '.') : Bool) = false from rfl, Bool.not_false]
    rw [if_pos trivial, hfilter, parse_neg_digits _ hDne hDdig, hDval,
      show -((m.natAbs : Int)) = m by omega]
  · rw [if_neg hm]
    unfold sanitize_price_string
    have htl : (String.mk (insertPoint (natDigits m.natAbs) s)).toList
        = insertPoint (natDigits m.natAbs) s := rfl
    rw [htl, sanitize_chars_clean _ hclean0, hfilter, parse_digits _ hDne hDdig, hDval,
      show ((m.natAbs : Int)) = m by omega]
